import Mathlib

set_option maxRecDepth 40000

/-!
Verification development for the LyricsAddRequest repository.

The Python modules `lyrics_core.py` and `scripts/handle_issue.py` are embedded
shallowly below.  Pure functions become Lean functions; the GitHub document
store becomes an explicit association-list state threaded through
`github_save_lyrics`.

Time values: every float computed by the cue pipeline (`parse_lrc`,
`parse_bracket_lrc`, `_serialize_lyrics`) lies on the exact 1/1000-second grid
(`ms / 1000`, `cs / 100`, `+ 4.0`, `+ 0.1`, `- 0.05`, and the serializer's
`* 100` results are all multiples of 1/1000 except the final `* 100`, which is
a multiple of 1/10).  Times are therefore embedded exactly as integer
milliseconds: the integer `v` stands for the float `v / 1000` seconds, the
float literal `1e-3` becomes the integer `1`, `4.0` becomes `4000`, and so on.
Fuzzy-similarity scores (not on that grid) use the exact fraction type `Frac`.

Python character classes (`\d`, `\s`, `str.lower`) are embedded over their
ASCII core plus the specific Unicode whitespace present in the repository's
data; `unicodedata.normalize("NFKC", ...)` is the identity on every
NFKC-stable string handled here (ASCII and precomposed Japanese text) and is
embedded as the identity function.
-/

/-! ### Python numeric primitives -/

/-- Python `abs` on an integer quantity. -/
def zabs (n : ℤ) : ℤ := if n < 0 then -n else n

/-- Python `max` on two numbers (returns the first argument when equal, which
is indistinguishable for numbers). -/
def pyMax (a b : ℤ) : ℤ := if a ≤ b then b else a

/-- Python `int(x)` for a float `x` held as exact milliseconds: truncation
toward zero of `x / 1000`, returned in whole seconds. -/
def pyIntSec (ms : ℤ) : ℤ :=
  if ms < 0 then -((-ms).ediv 1000) else ms.ediv 1000

/-- Python `round` (banker's rounding, half to even) of the exact fraction
`a / b` for `b > 0`. -/
def pyRoundDiv (a : ℤ) (b : ℤ) : ℤ :=
  let q := a.ediv b
  let r := a - q * b
  if 2 * r < b then q
  else if b < 2 * r then q + 1
  else if q % 2 = 0 then q else q + 1

/-! ### Python string primitives -/

/-- Whitespace class used by Python's `str.strip` / `\s` (ASCII core plus the
ideographic and no-break spaces that can occur in the repository's data). -/
def pyIsWs (c : Char) : Bool :=
  c = ' ' || c = '\t' || c = '\n' || c = '\r' || c = '\x0b' || c = '\x0c' ||
  c.toNat = 0xa0 || c.toNat = 0x3000

/-- Python `str.strip()` on a character list. -/
def pyStripL (l : List Char) : List Char :=
  ((l.dropWhile pyIsWs).reverse.dropWhile pyIsWs).reverse

/-- Python `str.strip()`. -/
def pyStrip (s : String) : String :=
  String.mk (pyStripL s.toList)

/-- ASCII lower-casing of one character (`str.lower` restricted to its ASCII
core). -/
def charLower (c : Char) : Char :=
  if 'A' ≤ c && c ≤ 'Z' then Char.ofNat (c.toNat + 32) else c

/-- Python `str.lower()` over the ASCII core. -/
def pyLower (s : String) : String :=
  String.mk (s.toList.map charLower)

/-- Python `str.strip(chars)`: strip any of the given characters from both
ends. -/
def pyStripChars (cs : List Char) (s : String) : String :=
  String.mk (((s.toList.dropWhile (cs.contains ·)).reverse.dropWhile
    (cs.contains ·)).reverse)

/-- Python `str.replace(pat, rep)` on character lists (leftmost,
non-overlapping); `fuel` is the input length, enough for every step since a
match consumes at least one character. -/
def listReplaceF (pat rep : List Char) : Nat → List Char → List Char
  | 0, l => l
  | _ + 1, [] => []
  | fuel + 1, c :: rest =>
    if pat ≠ [] && pat.isPrefixOf (c :: rest) then
      rep ++ listReplaceF pat rep fuel ((c :: rest).drop pat.length)
    else
      c :: listReplaceF pat rep fuel rest

/-- Python `str.replace`. -/
def pyReplace (s pat rep : String) : String :=
  String.mk (listReplaceF pat.toList rep.toList s.toList.length s.toList)

/-- Line-break characters recognized by Python's `str.splitlines`. -/
def isLineBreak (c : Char) : Bool :=
  c = '\n' || c = '\r' || c = '\x0b' || c = '\x0c' ||
  c.toNat = 0x1c || c.toNat = 0x1d || c.toNat = 0x1e ||
  c.toNat = 0x85 || c.toNat = 0x2028 || c.toNat = 0x2029

/-- Split at every line break, keeping the (possibly empty) final segment
after the last break. -/
def splitLinesAll : List Char → List (List Char)
  | [] => [[]]
  | '\r' :: '\n' :: rest => [] :: splitLinesAll rest
  | c :: rest =>
    if isLineBreak c then
      [] :: splitLinesAll rest
    else
      match splitLinesAll rest with
      | [] => [[c]]
      | l :: ls => (c :: l) :: ls

/-- Python `str.splitlines()`: the final segment is dropped exactly when it is
empty (a trailing line break emits no empty line; `"".splitlines() = []`). -/
def pySplitlines (s : String) : List String :=
  let parts := splitLinesAll s.toList
  (if parts.getLast? = some [] then parts.dropLast else parts).map String.mk

/-- Python `int(...)` on a string of decimal digits. -/
def digitsToNat (ds : List Char) : Nat :=
  ds.foldl (fun n c => n * 10 + (c.toNat - '0'.toNat)) 0

/-! ### Cue model (`lyrics_core.py` lines 200-243) -/

/-- A timestamped lyric cue, the dict `{"start": float, "end": float,
"text": str}` of the source; the `end` key is embedded as the field `stop`
(`end` is a reserved word in Lean).  Times are exact integer milliseconds
standing for the Python float seconds (see the file header). -/
structure Cue where
  start : ℤ
  stop : ℤ
  text : String
deriving DecidableEq, Repr

/-- Start time for `[mm:ss.ms]` as dialect A computes it, in milliseconds:
`mm * 60 + ss + ms / 1000` seconds, the fractional digit string fed through
`int` and divided by 1000 with no right-padding. -/
def lrcTsMs (mm ss ms : Nat) : ℤ :=
  ((mm * 60 + ss) * 1000 + ms : ℤ)

/-- Anchored match of `LRC_RE = \[(\d{1,2}):(\d{2})(?:\.(\d{1,3}))?]` at the
start of a line (Python `re.match`), returning the computed start time and the
rest of the line after the match.  Digit runs of the wrong length make the
whole match fail (regex backtracking cannot rescue them because a shortened
run is still followed by a digit, never by `:` or `]`). -/
def lrcMatch (line : String) : Option (ℤ × String) :=
  match line.toList with
  | '[' :: rest =>
    let mmds := rest.takeWhile Char.isDigit
    if mmds.length = 0 || mmds.length > 2 then none
    else
      match rest.drop mmds.length with
      | ':' :: a :: b :: r3 =>
        if a.isDigit && b.isDigit then
          match r3 with
          | ']' :: r4 =>
            some (lrcTsMs (digitsToNat mmds) (digitsToNat [a, b]) 0,
              String.mk r4)
          | '.' :: r4 =>
            let fds := r4.takeWhile Char.isDigit
            if 1 ≤ fds.length && fds.length ≤ 3 then
              match r4.drop fds.length with
              | ']' :: r5 =>
                some (lrcTsMs (digitsToNat mmds) (digitsToNat [a, b])
                  (digitsToNat fds), String.mk r5)
              | _ => none
            else none
          | _ => none
        else none
      | _ => none
  | _ => none

/-- The `(timestamp, stripped body)` pairs of the lines of `text` that match
`LRC_RE` and have a non-empty body — exactly the lines `parse_lrc` keeps. -/
def lrcMatches (text : String) : List (ℤ × String) :=
  (pySplitlines text).filterMap fun line =>
    (lrcMatch line).bind fun p =>
      let b := pyStrip p.2
      if b = "" then none else some (p.1, b)

/-- One iteration of the `parse_lrc` loop body.  The Python loop appends to
`cues` and mutates `cues[-1]`; the accumulator is kept most-recent-first here
(so `cues[-1]` is the head) and reversed once at the end.  The float test
`abs(cues[-1]["start"] - ts) < 1e-3` is `zabs (...) < 1` on the millisecond
grid. -/
def lrcStepR (acc : List Cue) (ts : ℤ) (b : String) : List Cue :=
  match acc with
  | last :: rest =>
    if zabs (last.start - ts) < 1 then
      { last with text := last.text ++ "\n" ++ b } :: rest
    else
      ⟨ts, ts + 4000, b⟩ :: last :: rest
  | [] => [⟨ts, ts + 4000, b⟩]

/-- The cue list built by the first (matching / merging) loop of
`parse_lrc`. -/
def lrcCues (ps : List (ℤ × String)) : List Cue :=
  (ps.foldl (fun acc p => lrcStepR acc p.1 p.2) []).reverse

/-- The end-synthesis loop shared by both parsers: every cue except the last
gets `end = max(start + 0.1, next.start - 0.05)` (milliseconds: `+ 100`,
`- 50`). -/
def fixEnds : List Cue → List Cue
  | a :: b :: rest =>
    { a with stop := pyMax (a.start + 100) (b.start - 50) } ::
      fixEnds (b :: rest)
  | l => l

/-- Embeds `parse_lrc` (`lyrics_core.py` 203-220 / `handle_issue.py` 171-190). -/
def parse_lrc (text : String) : List Cue :=
  fixEnds (lrcCues (lrcMatches text))

/-- Start time for dialect B's `[mm:ss.cc]` in milliseconds, after the
`cs = cs if cs >= 10 else cs * 10` normalization (`cs / 100` seconds is
`cs * 10` ms). -/
def bracketTsMs (mm ss cs : Nat) : ℤ :=
  ((mm * 60 + ss) * 1000 + (if cs ≥ 10 then cs else cs * 10) * 10 : ℤ)

/-- Anchored match of `LRC_BRACKET = ^\s*\[(\d{1,2}):(\d{2})\.(\d{1,3})]`
(fraction mandatory, leading whitespace allowed). -/
def bracketMatch (line : String) : Option (ℤ × String) :=
  match line.toList.dropWhile pyIsWs with
  | '[' :: rest =>
    let mmds := rest.takeWhile Char.isDigit
    if mmds.length = 0 || mmds.length > 2 then none
    else
      match rest.drop mmds.length with
      | ':' :: a :: b :: r3 =>
        if a.isDigit && b.isDigit then
          match r3 with
          | '.' :: r4 =>
            let fds := r4.takeWhile Char.isDigit
            if 1 ≤ fds.length && fds.length ≤ 3 then
              match r4.drop fds.length with
              | ']' :: r5 =>
                some (bracketTsMs (digitsToNat mmds) (digitsToNat [a, b])
                  (digitsToNat fds), String.mk r5)
              | _ => none
            else none
          | _ => none
        else none
      | _ => none
  | _ => none

/-- The `(timestamp, stripped body)` pairs of the lines `parse_bracket_lrc`
keeps. -/
def bracketMatches (text : String) : List (ℤ × String) :=
  (pySplitlines text).filterMap fun line =>
    (bracketMatch line).bind fun p =>
      let b := pyStrip p.2
      if b = "" then none else some (p.1, b)

/-- Embeds `parse_bracket_lrc` (`lyrics_core.py` 226-243 / `handle_issue.py`
196-217): `None` when no line matched, else the cue list after end
synthesis. -/
def parse_bracket_lrc (text : String) : Option (List Cue) :=
  let cs := (bracketMatches text).map fun p => (⟨p.1, p.1 + 4000, p.2⟩ : Cue)
  if cs.isEmpty then none else some (fixEnds cs)

/-! ### Serialization (`_serialize_lyrics`, `lyrics_core.py` 57-78) -/

/-- Python truthiness of an optional string (`None` and `""` are falsy). -/
def truthyS : Option String → Bool
  | none => false
  | some s => !(s == "")

/-- Python truthiness of an optional cue list (`None` and `[]` are falsy). -/
def truthyC : Option (List Cue) → Bool
  | none => false
  | some cs => !cs.isEmpty

/-- Embeds `f"{x:02d}"`: decimal rendering zero-padded to width 2. -/
def pad2 (n : ℤ) : String :=
  let s := toString n
  if s.length < 2 then "0" ++ s else s

/-- The `[mm:ss.cc]` stamp the serializer builds for a start time:
`divmod(int(start), 60)` plus `round((start - int(start)) * 100)`. -/
def cueStamp (startMs : ℤ) : String :=
  let n := pyIntSec startMs
  let mm := n.ediv 60
  let ss := n.emod 60
  let cs := pyRoundDiv (startMs - n * 1000) 10
  "[" ++ pad2 mm ++ ":" ++ pad2 ss ++ "." ++ pad2 cs ++ "]"

/-- The serializer's cue loop: a blank line is inserted whenever the gap from
the previous cue's end is at least 4 seconds and output already exists; each
cue's text has newlines flattened to spaces. -/
def serializeCuesAux : List Cue → ℤ → List String → List String
  | [], _, out => out
  | e :: rest, prevEnd, out =>
    let out1 := if e.start - prevEnd ≥ 4000 && !out.isEmpty then
      out ++ [""] else out
    let txt := pyStrip (pyReplace e.text "\n" " ")
    serializeCuesAux rest e.stop (out1 ++ [cueStamp e.start ++ " " ++ txt])

/-- Serialization of a cue list to LRC text. -/
def serializeCues (cues : List Cue) : String :=
  String.intercalate "\n" (serializeCuesAux cues 0 [])

/-- Embeds `_serialize_lyrics` (`lyrics_core.py` 57-78 / `handle_issue.py` 246-264):
non-empty plain text wins, else cues, else the empty string. -/
def serialize_lyrics (plain : Option String) (cues : Option (List Cue)) :
    String :=
  if truthyS plain then pyStrip (plain.getD "")
  else if !truthyC cues then ""
  else serializeCues (cues.getD [])

/-! ### Document store model (`github_save_lyrics`, `lyrics_core.py` 82-193,
`handle_issue.py` 268-404)

A repository of the PAT user is a description plus a list of named files; the
store maps repository names to repositories.  `get_repo` is an association
lookup, `create_repo` appends, `create_file` appends a file, and exceptions
for missing entities become the corresponding no-ops / branch choices, exactly
as the `try/except GithubException` blocks use them. -/

/-- One GitHub repository: description and named files (name, content). -/
structure Repo where
  description : String
  files : List (String × String)
deriving DecidableEq, Repr

/-- The store: repositories of the PAT user, keyed by repository name. -/
abbrev Store := List (String × Repo)

/-- First file with the given exact name. -/
def lookupFile : List (String × String) → String → Option String
  | [], _ => none
  | (n, c) :: rest, key => if n == key then some c else lookupFile rest key

/-- Embeds `gh_user.get_repo(name)` (None = `GithubException`, repo missing). -/
def findRepo : Store → String → Option Repo
  | [], _ => none
  | (n, r) :: rest, key => if n == key then some r else findRepo rest key

/-- Replace the repository stored under `name` (appending if absent). -/
def setRepo : Store → String → Repo → Store
  | [], name, r => [(name, r)]
  | (n, r0) :: rest, name, r =>
    if n == name then (n, r) :: rest else (n, r0) :: setRepo rest name r

/-- Contents of a named file of a repository in the store. -/
def getFile (st : Store) (name fname : String) : Option String :=
  match findRepo st name with
  | some r => lookupFile r.files fname
  | none => none

/-- Embeds `repo.create_file(name, _, content)`. -/
def createFile (r : Repo) (name content : String) : Repo :=
  { r with files := r.files ++ [(name, content)] }

/-- Embeds `repo.delete_file(name, ...)`; deleting a missing file raised
`GithubException` and was ignored, so this is a plain filter. -/
def deleteFile (r : Repo) (name : String) : Repo :=
  { r with files := r.files.filter (fun p => !(p.1 == name)) }

/-- Embeds `repo.update_file(name, _, content, ...)`. -/
def updateFile (r : Repo) (name content : String) : Repo :=
  { r with files := r.files.map (fun p => if p.1 == name then (name, content)
      else p) }

/-- The existence check `any(f.name.lower() == "readme.md" for f in
repo.get_contents(""))`. -/
def hasReadme (r : Repo) : Bool :=
  r.files.any (fun f => pyLower f.1 == "readme.md")

/-- The music-metadata dict passed to `github_save_lyrics` (only the `artist`
and `track` keys are read by it). -/
structure MusicMeta where
  artist : Option String
  track : Option String
deriving DecidableEq, Repr

/-- The source-flag bookkeeping (`lyrics_core.py` 159-189): delete the other
code files among "1","2","3", then update-or-create the current one. -/
def withFlags (r : Repo) : Option ℤ → Repo
  | none => r
  | some code =>
    let codeName := toString code
    let contentCode := codeName ++ "\n"
    let r1 := ["1", "2", "3"].foldl
      (fun acc n =>
        if n ≠ codeName && (lookupFile acc.files n).isSome then
          deleteFile acc n
        else acc) r
    match lookupFile r1.files codeName with
    | some existing =>
      if existing ≠ contentCode then updateFile r1 codeName contentCode else r1
    | none => createFile r1 codeName contentCode

/-- The heading block (`heading_lines`, `lyrics_core.py` 119-129). -/
def headingFor (title status : String) (sourceCode : Option ℤ) : String :=
  String.intercalate "\n"
    (["# " ++ title, "", "> **歌詞登録ステータス：" ++ status ++ "**"] ++
      match sourceCode with
      | some c => [">", "> **歌詞取得コード：" ++ toString c ++ "**"]
      | none => [])

/-- Embeds `github_save_lyrics` (`lyrics_core.py` 82-193).  The Python `artist` /
`track_name` locals start as `None` and become possibly-empty stripped
strings when `music_meta` is given; both cases are falsy alike, embedded here
as `""`.  On the skip path (README already present) the function returns
before any write, so the store is unchanged. -/
def github_save_lyrics (st : Store) (repoName title status : String)
    (plain : Option String) (cues : Option (List Cue))
    (sourceCode : Option ℤ) (ytFullTitle : Option String)
    (musicMeta : Option MusicMeta) : Store :=
  let body := serialize_lyrics plain cues
  let artist := match musicMeta with
    | some m => pyStrip (m.artist.getD "")
    | none => ""
  let trackName := match musicMeta with
    | some m => pyStrip (m.track.getD "")
    | none => ""
  let desc := if artist ≠ "" && trackName ≠ "" then
      artist ++ " – " ++ trackName
    else if pyStrip (ytFullTitle.getD "") ≠ "" then
      pyStrip (ytFullTitle.getD "")
    else title
  let status1 := if body = "" then "歌詞の登録なし" else status
  let heading := headingFor title status1 sourceCode
  let lang := if truthyC cues then "lrc" else ""
  let content := if body ≠ "" then
      heading ++ "\n\n```" ++ lang ++ "\n" ++ body ++ "\n```"
    else heading
  match findRepo st repoName with
  | some repo =>
    if hasReadme repo then st
    else
      let repo1 := if repo.description ≠ desc then
          { repo with description := desc }
        else repo
      let repo2 := createFile repo1 "README.md" content
      setRepo st repoName (withFlags repo2 sourceCode)
  | none =>
    let repo0 : Repo := ⟨desc, []⟩
    let repo2 := createFile repo0 "README.md" content
    setRepo st repoName (withFlags repo2 sourceCode)

/-! ### Lemmas about the skip path of `github_save_lyrics` -/

/-- A file literally named `README.md` satisfies the case-insensitive
existence check. -/
theorem hasReadme_of_lookup {files : List (String × String)} {c : String}
    (h : lookupFile files "README.md" = some c) :
    files.any (fun f => pyLower f.1 == "readme.md") = true := by
  induction files with
  | nil => simp [lookupFile] at h
  | cons p rest ih =>
    obtain ⟨n, cc⟩ := p
    by_cases hn : n == "README.md"
    · have : n = "README.md" := by simpa using hn
      subst this
      simp [List.any_cons]
      left
      decide
    · simp only [lookupFile, hn, if_false] at h
      simp [List.any_cons, ih h]

/-- When the repository already holds a README (case-insensitive), the whole
call returns before any write: the store is unchanged. -/
theorem save_skip (st : Store) (repoName title status : String)
    (plain : Option String) (cues : Option (List Cue)) (sc : Option ℤ)
    (yt : Option String) (mm : Option MusicMeta) (repo : Repo)
    (hr : findRepo st repoName = some repo) (hread : hasReadme repo = true) :
    github_save_lyrics st repoName title status plain cues sc yt mm = st := by
  unfold github_save_lyrics
  rw [hr]
  simp [hread]

/-- Claim C1: once a first `github_save_lyrics` call has stored a non-empty
`README.md` under an identifier, a second call for the same identifier leaves
the store untouched (the existing-content check returns before any create),
so the stored primary content is byte-identical after the second call. -/
theorem spec_c1 (st0 : Store) (repoName t1 s1 : String) (p1 : Option String)
    (c1 : Option (List Cue)) (sc1 : Option ℤ) (y1 : Option String)
    (m1 : Option MusicMeta) (t2 s2 : String) (p2 : Option String)
    (c2 : Option (List Cue)) (sc2 : Option ℤ) (y2 : Option String)
    (m2 : Option MusicMeta) (content : String)
    (hfirst : getFile (github_save_lyrics st0 repoName t1 s1 p1 c1 sc1 y1 m1)
      repoName "README.md" = some content)
    (_hne : content ≠ "") :
    github_save_lyrics (github_save_lyrics st0 repoName t1 s1 p1 c1 sc1 y1 m1)
        repoName t2 s2 p2 c2 sc2 y2 m2 =
      github_save_lyrics st0 repoName t1 s1 p1 c1 sc1 y1 m1 ∧
    getFile (github_save_lyrics
        (github_save_lyrics st0 repoName t1 s1 p1 c1 sc1 y1 m1)
        repoName t2 s2 p2 c2 sc2 y2 m2) repoName "README.md" =
      some content := by
  set st1 := github_save_lyrics st0 repoName t1 s1 p1 c1 sc1 y1 m1 with hst1
  cases hrepo : findRepo st1 repoName with
  | none => simp [getFile, hrepo] at hfirst
  | some repo =>
    have hl : lookupFile repo.files "README.md" = some content := by
      simpa [getFile, hrepo] using hfirst
    have hread : hasReadme repo = true := hasReadme_of_lookup hl
    have heq := save_skip st1 repoName t2 s2 p2 c2 sc2 y2 m2 repo hrepo hread
    exact ⟨heq, by rw [heq]; exact hfirst⟩

/-- Witness for C1: an empty store, a first call writing non-empty lyrics,
then a second call with different arguments; the second call is the
identity. -/
theorem spec_c1_witness :
    github_save_lyrics
        (github_save_lyrics [] "vid" "T" "S" (some "hello") none none none
          none)
        "vid" "U" "V" none none (some 2) none none =
      github_save_lyrics [] "vid" "T" "S" (some "hello") none none none
        none :=
  (spec_c1 [] "vid" "T" "S" (some "hello") none none none none "U" "V" none
    none (some 2) none none
    "# T\n\n> **歌詞登録ステータス：S**\n\n```\nhello\n```"
    (by decide) (by decide)).1

/-- Claim C10: whenever the repository for an identifier already holds a
`README.md`, `github_save_lyrics` returns before the provenance-flag logic,
so for every `source_code` value the flag files "1", "2" and "3" are left
exactly as they were. -/
theorem spec_c10 (st : Store) (repoName title status : String)
    (plain : Option String) (cues : Option (List Cue)) (sc : Option ℤ)
    (yt : Option String) (mm : Option MusicMeta) (repo : Repo)
    (hr : findRepo st repoName = some repo) (hread : hasReadme repo = true) :
    getFile (github_save_lyrics st repoName title status plain cues sc yt mm)
        repoName "1" = getFile st repoName "1" ∧
    getFile (github_save_lyrics st repoName title status plain cues sc yt mm)
        repoName "2" = getFile st repoName "2" ∧
    getFile (github_save_lyrics st repoName title status plain cues sc yt mm)
        repoName "3" = getFile st repoName "3" := by
  rw [save_skip st repoName title status plain cues sc yt mm repo hr hread]
  exact ⟨rfl, rfl, rfl⟩

/-- Witness for C10: a store whose repository has a README and a stale flag
"2"; a call carrying `source_code = 1` changes none of the flag files. -/
theorem spec_c10_witness :
    getFile (github_save_lyrics
        [("vid", ⟨"d", [("README.md", "# x"), ("2", "2\n")]⟩)]
        "vid" "T" "S" (some "body") none (some 1) none none) "vid" "1" =
      getFile [("vid", ⟨"d", [("README.md", "# x"), ("2", "2\n")]⟩)] "vid"
        "1" ∧
    getFile (github_save_lyrics
        [("vid", ⟨"d", [("README.md", "# x"), ("2", "2\n")]⟩)]
        "vid" "T" "S" (some "body") none (some 1) none none) "vid" "2" =
      getFile [("vid", ⟨"d", [("README.md", "# x"), ("2", "2\n")]⟩)] "vid"
        "2" ∧
    getFile (github_save_lyrics
        [("vid", ⟨"d", [("README.md", "# x"), ("2", "2\n")]⟩)]
        "vid" "T" "S" (some "body") none (some 1) none none) "vid" "3" =
      getFile [("vid", ⟨"d", [("README.md", "# x"), ("2", "2\n")]⟩)] "vid"
        "3" :=
  spec_c10 _ "vid" "T" "S" (some "body") none (some 1) none none
    ⟨"d", [("README.md", "# x"), ("2", "2\n")]⟩ (by decide) (by decide)

/-! ### Claims about serialization and parsing -/

/-- Counterexample for C2 as stated: with both a non-empty plain text and a
non-empty cue list, `_serialize_lyrics` emits the plain text, not the cue
representation. -/
theorem spec_c2_cex :
    serialize_lyrics (some "plain words") (some [⟨1000, 5000, "cue text"⟩]) =
      "plain words" ∧
    serializeCues [⟨1000, 5000, "cue text"⟩] = "[00:01.00] cue text" ∧
    "plain words" ≠ "[00:01.00] cue text" :=
  ⟨by decide, by decide, by decide⟩

/-- Claim C2 (amended): non-empty plain text takes precedence — it is
returned stripped and the cues are ignored; the cue representation is
emitted only when plain is absent or empty and the cue list is non-empty. -/
theorem spec_c2_amended (p : String) (cues : Option (List Cue))
    (cs : List Cue) (hp : p ≠ "") (hcs : cs ≠ []) :
    serialize_lyrics (some p) cues = pyStrip p ∧
    serialize_lyrics none (some cs) = serializeCues cs := by
  constructor
  · simp [serialize_lyrics, truthyS, hp]
  · simp [serialize_lyrics, truthyS, truthyC, hcs]

/-- Witness for C2 (amended) at concrete inputs. -/
theorem spec_c2_witness :
    serialize_lyrics (some "plain words") (some [⟨1000, 5000, "cue text"⟩]) =
      pyStrip "plain words" ∧
    serialize_lyrics none (some [⟨1000, 5000, "cue text"⟩]) =
      serializeCues [⟨1000, 5000, "cue text"⟩] :=
  ⟨(spec_c2_amended "plain words" (some [⟨1000, 5000, "cue text"⟩])
      [⟨1000, 5000, "cue text"⟩] (by decide) (by decide)).1,
   (spec_c2_amended "plain words" (some [⟨1000, 5000, "cue text"⟩])
      [⟨1000, 5000, "cue text"⟩] (by decide) (by decide)).2⟩

/-- Claim C3, evaluated on the code: both lines carry the same computed
timestamp, so they merge into one cue with text `"hello\nworld"`, but the
start is 62.05 s (62050 ms: the two-digit fraction `50` is read as a raw
count of milliseconds), not the 62.5 s the claim states. -/
theorem spec_c3_eval :
    parse_lrc "[01:02.50]hello\n[01:02.50]world" =
      [⟨62050, 66050, "hello\nworld"⟩] ∧
    ((62050 : ℚ) / 1000 = 1241 / 20 ∧ (62050 : ℚ) / 1000 ≠ 125 / 2) :=
  ⟨by decide, by norm_num⟩

/-- Claim C4, evaluated on the code: the cue parsed from `"[01:02.50]hello"`
starts at 62050 ms; serializing writes centiseconds (`"[01:02.05] hello"`),
and re-parsing that line yields 62005 ms under `parse_lrc` and 62500 ms under
`parse_bracket_lrc` — both more than 10 ms (the claim's tolerance) away. -/
theorem spec_c4_eval :
    parse_lrc "[01:02.50]hello" = [⟨62050, 66050, "hello"⟩] ∧
    serialize_lyrics none (some (parse_lrc "[01:02.50]hello")) =
      "[01:02.05] hello" ∧
    parse_lrc "[01:02.05] hello" = [⟨62005, 66005, "hello"⟩] ∧
    parse_bracket_lrc "[01:02.05] hello" = some [⟨62500, 66500, "hello"⟩] ∧
    zabs (62050 - 62005) > 10 ∧ zabs (62050 - 62500) > 10 :=
  ⟨by decide, by decide, by decide, by decide, by decide, by decide⟩

/-! ### Structural lemmas for claim C5 -/

/-- The matched timestamps (in input order) of the lines `parse_lrc` keeps. -/
def lrcTimestamps (text : String) : List ℤ :=
  (lrcMatches text).map Prod.fst

/-- The matched timestamps of the lines `parse_bracket_lrc` keeps. -/
def bracketTimestamps (text : String) : List ℤ :=
  (bracketMatches text).map Prod.fst

theorem le_pyMax_left (a b : ℤ) : a ≤ pyMax a b := by
  unfold pyMax; split <;> omega

theorem fixEnds_map_start : ∀ l : List Cue,
    (fixEnds l).map Cue.start = l.map Cue.start
  | [] => by simp [fixEnds]
  | [c] => by simp [fixEnds]
  | a :: b :: rest => by
    rw [fixEnds]
    simpa using fixEnds_map_start (b :: rest)

theorem fixEnds_chain : ∀ l : List Cue,
    List.Chain' (fun x y => x.stop = pyMax (x.start + 100) (y.start - 50))
      (fixEnds l)
  | [] => by simp [fixEnds]
  | [c] => by simp [fixEnds]
  | a :: b :: rest => by
    rw [fixEnds]
    cases rest with
    | nil => simp [fixEnds, List.chain'_cons]
    | cons c cs =>
      have ih := fixEnds_chain (b :: c :: cs)
      rw [fixEnds] at ih
      rw [fixEnds, List.chain'_cons]
      exact ⟨rfl, ih⟩

theorem fixEnds_getLast? : ∀ l : List Cue,
    (fixEnds l).getLast? = l.getLast?
  | [] => rfl
  | [c] => rfl
  | a :: b :: rest => by
    have ih := fixEnds_getLast? (b :: rest)
    rw [fixEnds]
    rcases hfe : fixEnds (b :: rest) with _ | ⟨x, xs⟩
    · exfalso
      cases rest <;> simp [fixEnds] at hfe
    · rw [List.getLast?_cons_cons, ← hfe, ih, List.getLast?_cons_cons]

theorem fixEnds_stop_pos : ∀ l : List Cue,
    (∀ c ∈ l, c.start < c.stop) → ∀ c ∈ fixEnds l, c.start < c.stop
  | [] => by simp [fixEnds]
  | [c] => by simp [fixEnds]
  | a :: b :: rest => by
    intro h c hc
    rw [fixEnds] at hc
    rcases List.mem_cons.mp hc with hc | hc
    · subst hc
      show a.start < pyMax (a.start + 100) (b.start - 50)
      calc a.start < a.start + 100 := by omega
        _ ≤ _ := le_pyMax_left _ _
    · exact fixEnds_stop_pos (b :: rest)
        (fun d hd => h d (List.mem_cons_of_mem a hd)) c hc

theorem getLast?_mem_list : ∀ {l : List Cue} {a : Cue},
    l.getLast? = some a → a ∈ l
  | [], _, h => by simp at h
  | [c], a, h => by
    simp [List.getLast?] at h
    simp [h]
  | c :: d :: rest, a, h => by
    rw [List.getLast?_cons_cons] at h
    exact List.mem_cons_of_mem c (getLast?_mem_list h)

/-- Every cue built by the matching loop of `parse_lrc` has the default end
`start + 4.0` before end synthesis. -/
theorem lrcFold_stop_eq : ∀ (ps : List (ℤ × String)) (acc : List Cue),
    (∀ c ∈ acc, c.stop = c.start + 4000) →
    ∀ c ∈ ps.foldl (fun acc p => lrcStepR acc p.1 p.2) acc,
      c.stop = c.start + 4000 := by
  intro ps
  induction ps with
  | nil => intro acc h; simpa using h
  | cons p ps ih =>
    intro acc h
    simp only [List.foldl_cons]
    apply ih
    intro c hc
    unfold lrcStepR at hc
    cases acc with
    | nil =>
      simp at hc
      simp [hc]
    | cons last rest =>
      by_cases hm : zabs (last.start - p.1) < 1
      · simp [hm] at hc
        rcases hc with hc | hc
        · have := h last (List.mem_cons_self last rest)
          simp [hc, this]
        · exact h c (List.mem_cons_of_mem last hc)
      · simp [hm] at hc
        rcases hc with hc | hc | hc
        · simp [hc]
        · exact h c (by simp [hc])
        · exact h c (List.mem_cons_of_mem last hc)

/-- The start values produced by the matching loop extend the accumulator's
start values by a (reversed) selection of the matched timestamps. -/
theorem lrcFold_starts : ∀ (ps : List (ℤ × String)) (acc : List Cue),
    ∃ s : List ℤ,
      (ps.foldl (fun acc p => lrcStepR acc p.1 p.2) acc).map Cue.start =
        s ++ acc.map Cue.start ∧
      s.reverse.Sublist (ps.map Prod.fst) := by
  intro ps
  induction ps with
  | nil => intro acc; exact ⟨[], by simp, by simp⟩
  | cons p ps ih =>
    intro acc
    simp only [List.foldl_cons]
    cases acc with
    | nil =>
      have hstep : lrcStepR [] p.1 p.2 = [⟨p.1, p.1 + 4000, p.2⟩] := rfl
      rw [hstep]
      obtain ⟨s, hs, hsub⟩ := ih [⟨p.1, p.1 + 4000, p.2⟩]
      exact ⟨s ++ [p.1], by simpa using hs,
        by simpa using List.Sublist.cons₂ p.1 hsub⟩
    | cons last rest =>
      by_cases hm : zabs (last.start - p.1) < 1
      · have hstep : lrcStepR (last :: rest) p.1 p.2 =
            { last with text := last.text ++ "\n" ++ p.2 } :: rest := by
          simp [lrcStepR, hm]
        rw [hstep]
        obtain ⟨s, hs, hsub⟩ :=
          ih ({ last with text := last.text ++ "\n" ++ p.2 } :: rest)
        exact ⟨s, by simpa using hs, List.Sublist.cons p.1 hsub⟩
      · have hstep : lrcStepR (last :: rest) p.1 p.2 =
            ⟨p.1, p.1 + 4000, p.2⟩ :: last :: rest := by
          simp [lrcStepR, hm]
        rw [hstep]
        obtain ⟨s, hs, hsub⟩ := ih (⟨p.1, p.1 + 4000, p.2⟩ :: last :: rest)
        refine ⟨s ++ [p.1], by simpa using hs, ?_⟩
        simpa using List.Sublist.cons₂ p.1 hsub

/-- The start values of `parse_lrc`'s cues are a sublist of the matched
timestamps (merging drops timestamps, nothing is reordered). -/
theorem parse_lrc_starts_sublist (text : String) :
    ((parse_lrc text).map Cue.start).Sublist (lrcTimestamps text) := by
  obtain ⟨s, hs, hsub⟩ := lrcFold_starts (lrcMatches text) []
  unfold parse_lrc lrcCues
  rw [fixEnds_map_start, List.map_reverse, hs]
  simpa [lrcTimestamps] using hsub

/-- Claim C5 (amended): for every input text and both dialect parsers, every
returned cue satisfies `end > start`; every non-last cue has
`end = max(start + 0.1, next.start - 0.05)` and the last cue keeps
`end = start + 4.0`.  The sequence is sorted by `start` ascending whenever
the matched timestamps appear in non-decreasing input order (the parsers do
not reorder lines, so an input with decreasing timestamps yields an unsorted
sequence). -/
theorem spec_c5_amended (text : String) :
    (∀ c ∈ parse_lrc text, c.start < c.stop) ∧
    List.Chain' (fun x y => x.stop = pyMax (x.start + 100) (y.start - 50))
      (parse_lrc text) ∧
    (∀ c, (parse_lrc text).getLast? = some c → c.stop = c.start + 4000) ∧
    (List.Sorted (· ≤ ·) (lrcTimestamps text) →
      List.Sorted (· ≤ ·) ((parse_lrc text).map Cue.start)) ∧
    ∀ cs, parse_bracket_lrc text = some cs →
      (∀ c ∈ cs, c.start < c.stop) ∧
      List.Chain' (fun x y => x.stop = pyMax (x.start + 100) (y.start - 50))
        cs ∧
      (∀ c, cs.getLast? = some c → c.stop = c.start + 4000) ∧
      (List.Sorted (· ≤ ·) (bracketTimestamps text) →
        List.Sorted (· ≤ ·) (cs.map Cue.start)) := by
  have hstops : ∀ c ∈ lrcCues (lrcMatches text), c.stop = c.start + 4000 := by
    intro c hc
    unfold lrcCues at hc
    exact lrcFold_stop_eq (lrcMatches text) [] (by simp) c
      (List.mem_reverse.mp hc)
  refine ⟨?_, fixEnds_chain _, ?_, ?_, ?_⟩
  · exact fixEnds_stop_pos _ (fun c hc => by rw [hstops c hc]; omega)
  · intro c hc
    unfold parse_lrc at hc
    rw [fixEnds_getLast?] at hc
    exact hstops c (getLast?_mem_list hc)
  · intro hsorted
    exact List.Pairwise.sublist (parse_lrc_starts_sublist text) hsorted
  · intro cs hcs
    unfold parse_bracket_lrc at hcs
    by_cases hemp : ((bracketMatches text).map
        (fun p => (⟨p.1, p.1 + 4000, p.2⟩ : Cue))).isEmpty
    · simp [hemp] at hcs
    · simp only [hemp, if_false] at hcs
      obtain rfl : cs = fixEnds ((bracketMatches text).map
          fun p => (⟨p.1, p.1 + 4000, p.2⟩ : Cue)) :=
        (Option.some_inj.mp hcs).symm
      have hstops2 : ∀ c ∈ (bracketMatches text).map
          (fun p => (⟨p.1, p.1 + 4000, p.2⟩ : Cue)),
          c.stop = c.start + 4000 := by
        intro c hc
        obtain ⟨p, _, rfl⟩ := List.mem_map.mp hc
        rfl
      refine ⟨?_, fixEnds_chain _, ?_, ?_⟩
      · exact fixEnds_stop_pos _ (fun c hc => by rw [hstops2 c hc]; omega)
      · intro c hc
        rw [fixEnds_getLast?] at hc
        exact hstops2 c (getLast?_mem_list hc)
      · intro hsorted
        rw [fixEnds_map_start, List.map_map]
        simpa [bracketTimestamps, Function.comp] using hsorted

/-- Witness for C5 (amended): a concrete two-line input for each dialect with
non-decreasing timestamps; the sorted conclusions and the last-cue rule are
obtained from the theorem with its hypotheses discharged. -/
theorem spec_c5_witness :
    List.Sorted (· ≤ ·)
      ((parse_lrc "[00:01.00]a\n[00:10.00]b").map Cue.start) ∧
    List.Sorted (· ≤ ·)
      (([⟨1000, 9950, "a"⟩, ⟨10000, 14000, "b"⟩] : List Cue).map
        Cue.start) ∧
    (⟨10000, 14000, "b"⟩ : Cue).stop = (⟨10000, 14000, "b"⟩ : Cue).start +
      4000 :=
  ⟨(spec_c5_amended "[00:01.00]a\n[00:10.00]b").2.2.2.1 (by decide),
   ((spec_c5_amended "[00:01.00]a\n[00:10.00]b").2.2.2.2
      [⟨1000, 9950, "a"⟩, ⟨10000, 14000, "b"⟩] (by decide)).2.2.2
      (by decide),
   (spec_c5_amended "[00:01.00]a\n[00:10.00]b").2.2.1 _ (by decide)⟩

/-- Counterexample for C5 as stated: an input whose timestamps decrease is
parsed in input order, so the cue sequence is not sorted by start. -/
theorem spec_c5_cex :
    (parse_lrc "[01:00]b\n[00:30]a").map Cue.start = [60000, 30000] ∧
    ¬ List.Sorted (· ≤ ·) ((parse_lrc "[01:00]b\n[00:30]a").map Cue.start) :=
  ⟨by decide, by decide⟩

/-- Claim C8: dialect B treats the single-digit fraction `3` as 30
centiseconds, giving start 5.3 s (5300 ms; the second conjunct restates the
milliseconds as the claim's seconds value). -/
theorem spec_c8 :
    parse_bracket_lrc "[00:05.3]line" = some [⟨5300, 9300, "line"⟩] ∧
    (5300 : ℚ) / 1000 = 53 / 10 :=
  ⟨by decide, by norm_num⟩

/-! ### Fuzzy similarity (`rapidfuzz.fuzz.ratio`) and LrcLib search
(`lrclib_search`, `lyrics_core.py` 253-299 / `handle_issue.py` 114-165)

`fuzz.ratio` is the normalized indel similarity
`100 * (1 - dist / (len1 + len2)) = 200 * lcs / (len1 + len2)` (100 when both
strings are empty).  Scores are exact fractions; `Frac` is an unnormalized
`num / den` pair compared by cross-multiplication (all denominators built
here are positive). -/

/-- An exact fraction without normalization; `⟨n, d⟩` stands for `n / d`. -/
structure Frac where
  num : ℤ
  den : ℤ
deriving DecidableEq, Repr

/-- Addition of fractions (denominators multiply). -/
def fAdd (a b : Frac) : Frac :=
  ⟨a.num * b.den + b.num * a.den, a.den * b.den⟩

/-- Embeds `a ≤ b` by cross-multiplication (the float comparison, exact for
positive denominators). -/
def fLe (a b : Frac) : Prop := a.num * b.den ≤ b.num * a.den

/-- Embeds `a < b` by cross-multiplication. -/
def fLt (a b : Frac) : Prop := a.num * b.den < b.num * a.den

instance (a b : Frac) : Decidable (fLe a b) := by unfold fLe; infer_instance

instance (a b : Frac) : Decidable (fLt a b) := by unfold fLt; infer_instance

/-- Boolean form of `fLt`, used where Python compares floats in code. -/
def fLtB (a b : Frac) : Bool := decide (fLt a b)

theorem fLe_refl (a : Frac) : fLe a a := le_refl _

theorem fLe_of_fLt {a b : Frac} (h : fLt a b) : fLe a b := le_of_lt h

theorem fLe_of_not_fLt {a b : Frac} (h : ¬ fLt a b) : fLe b a := by
  unfold fLt at h
  unfold fLe
  omega

theorem fLe_trans {a b c : Frac} (ha : 0 < a.den) (hb : 0 < b.den)
    (hc : 0 < c.den) (h1 : fLe a b) (h2 : fLe b c) : fLe a c := by
  unfold fLe at h1 h2 ⊢
  have h1' := mul_le_mul_of_nonneg_right h1 hc.le
  have h2' := mul_le_mul_of_nonneg_right h2 ha.le
  have h3 : a.num * c.den * b.den ≤ c.num * a.den * b.den := by nlinarith
  exact le_of_mul_le_mul_right h3 hb

theorem fAdd_den_pos {a b : Frac} (ha : 0 < a.den) (hb : 0 < b.den) :
    0 < (fAdd a b).den := mul_pos ha hb

theorem fAdd_fLt_fAdd {t r1 r2 : Frac} (ht : 0 < t.den)
    (h : fLt r1 r2) : fLt (fAdd t r1) (fAdd t r2) := by
  unfold fLt fAdd at *
  simp only
  nlinarith [mul_pos ht ht]

/-- Longest-common-subsequence row update (`left` is the entry just computed
in the new row, the list argument pairs the remaining old row with the
remaining second string). -/
def lcsRowAux (a : Char) : List Char → List Nat → Nat → List Nat
  | b :: bs, p0 :: p1 :: ps, left =>
    let cur := if a == b then p0 + 1 else (if left ≤ p1 then p1 else left)
    cur :: lcsRowAux a bs (p1 :: ps) cur
  | _, _, _ => []

/-- Length of the longest common subsequence (dynamic programming by rows). -/
def lcsLen (as bs : List Char) : Nat :=
  (as.foldl (fun row a => 0 :: lcsRowAux a bs row 0)
    (List.replicate (bs.length + 1) 0)).getLastD 0

/-- Embeds `fuzz.ratio` as an exact fraction in [0, 100]:
`200 * lcs / (len1 + len2)`, and 100 for two empty strings. -/
def fuzzRatioF (s t : String) : Frac :=
  if s.toList.length + t.toList.length = 0 then ⟨100, 1⟩
  else ⟨(200 * lcsLen s.toList t.toList : ℤ),
    (s.toList.length + t.toList.length : ℤ)⟩

theorem fuzzRatioF_den_pos (s t : String) : 0 < (fuzzRatioF s t).den := by
  unfold fuzzRatioF
  split
  · simp
  · rename_i h
    simp only
    omega

/-- Embeds `unicodedata.normalize("NFKC", s)`: identity on every NFKC-stable string
this development handles (ASCII and precomposed Japanese text), embedded as
the identity function. -/
def nfkc (s : String) : String := s

/-- Collapse every maximal whitespace run to one space (`re.sub(r"\s+", " ",
...)`); the flag records whether the previous character was whitespace. -/
def collapseWsL : Bool → List Char → List Char
  | _, [] => []
  | prevWs, c :: rest =>
    if pyIsWs c then
      if prevWs then collapseWsL true rest
      else ' ' :: collapseWsL true rest
    else c :: collapseWsL false rest

/-- Embeds `_nf_lrc` (`lyrics_core.py` 253-255): NFKC, collapse whitespace, strip,
lower-case. -/
def nfLrc (s : String) : String :=
  pyLower (pyStrip (String.mk (collapseWsL false (nfkc s).toList)))

/-- One LrcLib search-result record (the two fields `lrclib_search`'s scoring
reads; `None`/missing and `""` are both falsy, embedded as `Option`). -/
structure LrcRec where
  trackName : Option String
  artistName : Option String
deriving DecidableEq, Repr

/-- The `_score` closure of `lrclib_search`: sum of the fuzzy ratios of the
present, truthy fields. -/
def scoreRec (trackName artistName : Option String) (rec : LrcRec) : Frac :=
  let s0 : Frac := ⟨0, 1⟩
  let s1 := if truthyS trackName && truthyS rec.trackName then
      fAdd s0 (fuzzRatioF (nfLrc (trackName.getD ""))
        (nfLrc (rec.trackName.getD "")))
    else s0
  if truthyS artistName && truthyS rec.artistName then
    fAdd s1 (fuzzRatioF (nfLrc (artistName.getD ""))
      (nfLrc (rec.artistName.getD "")))
  else s1

theorem scoreRec_den_pos (tn an : Option String) (rec : LrcRec) :
    0 < (scoreRec tn an rec).den := by
  unfold scoreRec
  have h0 : (0 : ℤ) < (1 : ℤ) := one_pos
  split <;> split <;>
    first
      | exact fAdd_den_pos (fAdd_den_pos h0 (fuzzRatioF_den_pos _ _))
          (fuzzRatioF_den_pos _ _)
      | exact fAdd_den_pos h0 (fuzzRatioF_den_pos _ _)
      | exact h0

/-- Python `max(data, key=f)`: fold keeping the first maximal element. -/
def pyMaxBy (f : α → Frac) (x : α) (xs : List α) : α :=
  xs.foldl (fun b y => if fLtB (f b) (f y) then y else b) x

theorem pyMaxBy_mem (f : α → Frac) : ∀ (xs : List α) (x : α),
    pyMaxBy f x xs ∈ x :: xs
  | [], x => by simp [pyMaxBy]
  | y :: ys, x => by
    have ih := pyMaxBy_mem f ys (if fLtB (f x) (f y) then y else x)
    have hstep : pyMaxBy f x (y :: ys) =
        pyMaxBy f (if fLtB (f x) (f y) then y else x) ys := rfl
    rw [hstep]
    rcases List.mem_cons.mp ih with h | h
    · rw [h]
      split <;> simp
    · simp [h]

theorem pyMaxBy_ge (f : α → Frac) : ∀ (xs : List α) (x : α),
    (∀ a ∈ x :: xs, 0 < (f a).den) →
    ∀ a ∈ x :: xs, fLe (f a) (f (pyMaxBy f x xs))
  | [], x, _, a, ha => by
    simp at ha
    subst ha
    exact fLe_refl _
  | y :: ys, x, hpos, a, ha => by
    have hstep : pyMaxBy f x (y :: ys) =
        pyMaxBy f (if fLtB (f x) (f y) then y else x) ys := rfl
    set x' := if fLtB (f x) (f y) then y else x with hx'
    have hx'mem : x' ∈ x :: y :: ys := by
      rw [hx']
      split <;> simp
    have hposS : ∀ b ∈ x' :: ys, 0 < (f b).den := by
      intro b hb
      rcases List.mem_cons.mp hb with hb | hb
      · exact hb ▸ hpos x' hx'mem
      · exact hpos b (List.mem_cons_of_mem x (List.mem_cons_of_mem y hb))
    have hresmem : pyMaxBy f x' ys ∈ x' :: ys := pyMaxBy_mem f ys x'
    have hge_x : fLe (f x) (f x') := by
      rw [hx']
      split
      · rename_i hlt
        exact fLe_of_fLt (by simpa [fLtB] using hlt)
      · exact fLe_refl _
    have hge_y : fLe (f y) (f x') := by
      rw [hx']
      split
      · exact fLe_refl _
      · rename_i hlt
        exact fLe_of_not_fLt (by simpa [fLtB] using hlt)
    have hmax := pyMaxBy_ge f ys x' hposS
    have htail : fLe (f x') (f (pyMaxBy f x' ys)) :=
      hmax x' (List.mem_cons_self _ _)
    rw [hstep]
    rcases List.mem_cons.mp ha with rfl | ha
    · exact fLe_trans (hpos a (List.mem_cons_self _ _)) (hpos x' hx'mem)
        (hposS _ hresmem) hge_x htail
    rcases List.mem_cons.mp ha with rfl | ha
    · exact fLe_trans (hpos a (by simp)) (hpos x' hx'mem)
        (hposS _ hresmem) hge_y htail
    · exact hmax a (List.mem_cons_of_mem x' ha)

/-- Embeds `lrclib_search` (`lyrics_core.py` 258-299) after the HTTP call: the
network interaction is embedded as the parsed response `resp` (`none` for a
transport/parse failure or a non-list body).  No query parameter usable
(`q` and `track_name` both falsy) returns `None` before any request; an
empty candidate list returns `None`; with `track_name` or `artist_name`
truthy the first best-scoring candidate is returned, else the first
candidate. -/
def lrclib_search (trackName artistName q : Option String)
    (resp : Option (List LrcRec)) : Option LrcRec :=
  if !truthyS q && !truthyS trackName then none
  else
    match resp with
    | none => none
    | some data =>
      if data.isEmpty then none
      else if truthyS trackName || truthyS artistName then
        match data with
        | [] => none
        | x :: xs => some (pyMaxBy (scoreRec trackName artistName) x xs)
      else data.head?

/-- Claim C7: with both a track name and an artist name supplied and a
non-empty candidate list returned, `lrclib_search` selects the first
candidate maximizing the summed fuzzy similarity of the normalized track and
artist fields; in particular, of two candidates with identical track name,
the one whose artist name is strictly more similar to the query artist is
selected (in either list order). -/
theorem spec_c7 (tn an : String) (htn : tn ≠ "") (han : an ≠ "") :
    (∀ (x : LrcRec) (xs : List LrcRec),
      lrclib_search (some tn) (some an) none (some (x :: xs)) =
        some (pyMaxBy (scoreRec (some tn) (some an)) x xs) ∧
      pyMaxBy (scoreRec (some tn) (some an)) x xs ∈ x :: xs ∧
      ∀ r ∈ x :: xs,
        fLe (scoreRec (some tn) (some an) r)
          (scoreRec (some tn) (some an)
            (pyMaxBy (scoreRec (some tn) (some an)) x xs))) ∧
    (∀ (c1 c2 : LrcRec) (a1 a2 : String),
      c1.trackName = c2.trackName →
      c1.artistName = some a1 → c2.artistName = some a2 →
      a1 ≠ "" → a2 ≠ "" →
      fLt (fuzzRatioF (nfLrc an) (nfLrc a1))
        (fuzzRatioF (nfLrc an) (nfLrc a2)) →
      lrclib_search (some tn) (some an) none (some [c1, c2]) = some c2 ∧
      lrclib_search (some tn) (some an) none (some [c2, c1]) = some c2) := by
  have htn' : (tn == "") = false := beq_eq_false_iff_ne.mpr htn
  have hsearch : ∀ (x : LrcRec) (xs : List LrcRec),
      lrclib_search (some tn) (some an) none (some (x :: xs)) =
        some (pyMaxBy (scoreRec (some tn) (some an)) x xs) := by
    intro x xs
    simp [lrclib_search, truthyS, htn']
  constructor
  · intro x xs
    refine ⟨hsearch x xs, pyMaxBy_mem _ _ _, ?_⟩
    exact pyMaxBy_ge _ xs x (fun a _ => scoreRec_den_pos _ _ a)
  · intro c1 c2 a1 a2 htrack ha1 ha2 hane1 hane2 hlt
    have han' : (an == "") = false := beq_eq_false_iff_ne.mpr han
    have hane1' : (a1 == "") = false := beq_eq_false_iff_ne.mpr hane1
    have hane2' : (a2 == "") = false := beq_eq_false_iff_ne.mpr hane2
    have hcmp : fLt (scoreRec (some tn) (some an) c1)
        (scoreRec (some tn) (some an) c2) := by
      unfold scoreRec
      rw [htrack, ha1, ha2]
      simp only [truthyS, han', hane1', hane2', Bool.not_false,
        Bool.and_true, Option.getD_some]
      apply fAdd_fLt_fAdd ?_ hlt
      split
      · exact fAdd_den_pos one_pos (fuzzRatioF_den_pos _ _)
      · exact one_pos
    have hnot : ¬ fLt (scoreRec (some tn) (some an) c2)
        (scoreRec (some tn) (some an) c1) := by
      unfold fLt at hcmp ⊢
      omega
    constructor
    · rw [hsearch c1 [c2]]
      simp [pyMaxBy, fLtB, hcmp]
    · rw [hsearch c2 [c1]]
      simp [pyMaxBy, fLtB, hnot]

/-- Witness for C7: two candidates sharing the track name `"hello"`; the
artist `"world"` matches the query exactly (similarity 100) while `"w0rld"`
scores 80, so the exact-artist candidate is selected. -/
theorem spec_c7_witness :
    lrclib_search (some "hello") (some "world") none
        (some [⟨some "hello", some "w0rld"⟩, ⟨some "hello", some "world"⟩]) =
      some ⟨some "hello", some "world"⟩ :=
  ((spec_c7 "hello" "world" (by decide) (by decide)).2
    ⟨some "hello", some "w0rld"⟩ ⟨some "hello", some "world"⟩ "w0rld" "world"
    rfl rfl rfl (by decide) (by decide) (by decide)).1

/-! ### Metadata normalizer (`lyrics_core.py` 323-370 and 486-569)

The regex machinery is embedded as explicit scanners: `TITLE_TRIM_PAT`'s
verbose alternation becomes a list of case-insensitive word chunks joined by
optional whitespace; `\b` boundaries use Python's `\w` (approximated as ASCII
alphanumerics, underscore, and all non-ASCII codepoints, which agrees on the
repository's Latin/CJK data); trailing-bracket-group patterns become a scan
for the first opening bracket whose suffix ends in a closing bracket followed
only by whitespace.  Titles are single-line, so `.`-excludes-newline only
needs the explicit newline guard. -/

/-- Case-insensitive literal prefix match, returning the rest. -/
def stripPrefixCI : List Char → List Char → Option (List Char)
  | [], l => some l
  | _ :: _, [] => none
  | p :: ps, c :: cs =>
    if charLower p == charLower c then stripPrefixCI ps cs else none

/-- Match a sequence of literal chunks joined by `\s*`, returning the rest. -/
def matchChunksCI : List String → List Char → Option (List Char)
  | [], l => some l
  | [w], l => stripPrefixCI w.toList l
  | w :: ws, l =>
    match stripPrefixCI w.toList l with
    | some rest => matchChunksCI ws (rest.dropWhile pyIsWs)
    | none => none

/-- The alternation of `TITLE_TRIM_PAT` (`lyrics_core.py` 323-332), one entry
per alternative in regex order, each a chunk list joined by optional
whitespace (`prod\.?.*?` is handled separately). -/
def titleTrimVocab : List (List String) :=
  [["official", "music", "video"], ["official", "video"], ["mv"],
   ["lyrics"], ["lyric", "video"], ["lyric"],
   ["audio"], ["teaser"], ["short"], ["pv"],
   ["full"], ["ver."], ["ver"], ["version"], ["remix"], ["edit"],
   ["live"], ["acoustic"], ["performance"],
   ["music", "video"], ["color", "coded"], ["dance", "practice"],
   ["practice"], ["choreo"], ["choreography"],
   ["official", "audio"], ["visualizer"], ["sped", "up"],
   ["slowed", "reverb"]]

/-- Embeds `\s*[\)\]]\s*$`: optional whitespace, an ASCII closing bracket, then only
whitespace to the end. -/
def closeTail (l : List Char) : Bool :=
  match l.dropWhile pyIsWs with
  | c :: rest => (c = ')' || c = ']') && rest.all pyIsWs
  | [] => false

/-- Embeds `.*?\s*[\)\]]\s*$`: some closing bracket exists whose suffix is all
whitespace (for the `prod\.?.*?` branch). -/
def anyCloseTail : List Char → Bool
  | [] => false
  | c :: rest =>
    ((c = ')' || c = ']') && rest.all pyIsWs) ||
      (!(c = '\n') && anyCloseTail rest)

/-- One vocabulary alternative followed by the closing bracket, starting just
after the opening bracket's optional whitespace. -/
def vocabThenClose (l : List Char) : Bool :=
  titleTrimVocab.any (fun alt =>
    match matchChunksCI alt l with
    | some rest => closeTail rest
    | none => false) ||
  (match stripPrefixCI "prod".toList l with
   | some rest => anyCloseTail rest
   | none => false)

/-- Does `TITLE_TRIM_PAT` match the whole suffix starting here
(`\s*[\(\[]\s* VOCAB \s*[\)\]]\s*$`)? -/
def matchTrimAt (l : List Char) : Bool :=
  match l.dropWhile pyIsWs with
  | c :: rest =>
    (c = '(' || c = '[') && vocabThenClose (rest.dropWhile pyIsWs)
  | [] => false

/-- Embeds `TITLE_TRIM_PAT.sub("", t)`: remove the suffix from the leftmost match
position (the pattern is anchored at the end, so removal truncates). -/
def titleTrimOnce : List Char → List Char
  | [] => []
  | c :: rest =>
    if matchTrimAt (c :: rest) then [] else c :: titleTrimOnce rest

/-- The bounded rewrite loop of `_clean_title_for_song`: up to five rounds of
trim-plus-strip, stopping at a fixed point. -/
def cleanTitleLoop : Nat → String → String
  | 0, t => t
  | n + 1, t =>
    let nt := pyStrip (String.mk (titleTrimOnce t.toList))
    if nt = t then t else cleanTitleLoop n nt

/-- Embeds `re.sub(r"\s{2,}", " ", ...)`: collapse only runs of two or more
whitespace characters to one space (single whitespace kept verbatim). -/
def collapseWs2F : Nat → List Char → List Char
  | 0, l => l
  | _ + 1, [] => []
  | fuel + 1, c :: rest =>
    if pyIsWs c then
      match rest with
      | d :: _ =>
        if pyIsWs d then ' ' :: collapseWs2F fuel (rest.dropWhile pyIsWs)
        else c :: collapseWs2F fuel rest
      | [] => [c]
    else c :: collapseWs2F fuel rest

/-- Embeds `_clean_title_for_song` (`lyrics_core.py` 337-344). -/
def _clean_title_for_song (title : String) : String :=
  let t := pyStrip title
  let t := cleanTitleLoop 5 t
  String.mk (collapseWs2F t.toList.length t.toList)

/-- Membership in `[぀-ヿ一-鿿]` (`JP_CHAR`). -/
def isCJK (c : Char) : Bool :=
  (0x3040 ≤ c.toNat && c.toNat ≤ 0x30ff) ||
  (0x4e00 ≤ c.toNat && c.toNat ≤ 0x9fff)

/-- Greedy match of one `CJK+(?:\s*CJK+)*` run starting at a CJK character:
absorb whitespace only when more CJK text follows. -/
def cjkRunAux : Nat → List Char → List Char × List Char
  | 0, l => ([], l)
  | fuel + 1, l =>
    let seg := l.takeWhile isCJK
    let rest := l.drop seg.length
    let wsrun := rest.takeWhile pyIsWs
    let rest2 := rest.drop wsrun.length
    match rest2 with
    | c :: _ =>
      if isCJK c && !wsrun.isEmpty then
        let (run, r) := cjkRunAux fuel rest2
        (seg ++ wsrun ++ run, r)
      else (seg, rest)
    | [] => (seg, rest)

/-- Embeds `re.findall` of the CJK-run pattern: non-overlapping maximal runs in
order. -/
def cjkRuns : Nat → List Char → List (List Char)
  | 0, _ => []
  | _ + 1, [] => []
  | fuel + 1, c :: rest =>
    if isCJK c then
      let (run, r) := cjkRunAux fuel (c :: rest)
      run :: cjkRuns fuel r
    else cjkRuns fuel rest

/-- Python `max(runs, key=len)`: the first run of maximal length. -/
def longestRun : List (List Char) → Option (List Char)
  | [] => none
  | r :: rs =>
    some (rs.foldl (fun best x => if best.length < x.length then x else best) r)

/-- Opening brackets of the trailing-qualifier patterns
(`[\(\[【（〈「『<]`). -/
def brOpens : List Char := "([【（〈「『<".toList

/-- Closing brackets of the trailing-qualifier patterns
(`[\)】］）〉』」>]`, note: no ASCII `]`). -/
def brCloses : List Char := ")】］）〉』」>".toList

/-- Does some closing bracket with an all-whitespace suffix follow (without
crossing a newline)?  This is `.*?CLOSE\s*$` for the sets above. -/
def tailHasClose : List Char → Bool
  | [] => false
  | c :: rest =>
    (brCloses.contains c && rest.all pyIsWs) ||
      (!(c = '\n') && tailHasClose rest)

/-- Embeds `re.sub(r"[\(\[【（〈「『<].*?[\)】］）〉』」>]\s*$", "", ...)`: truncate at
the leftmost opening bracket whose suffix ends in a closing bracket plus
whitespace (callers strip afterwards, which also covers the pattern variant
with a leading `\s*`). -/
def removeTrailingBracketL : List Char → List Char
  | [] => []
  | c :: rest =>
    if brOpens.contains c && tailHasClose rest then []
    else c :: removeTrailingBracketL rest

/-- Embeds `_pick_japanese_segment_safe` (`lyrics_core.py` 347-357). -/
def _pick_japanese_segment_safe (text : String) : Option String :=
  if text = "" then none
  else
    match longestRun (cjkRuns text.toList.length text.toList) with
    | none => none
    | some run =>
      let cand := pyStrip (String.mk (removeTrailingBracketL run))
      if cand = "" then none else some cand

/-- The separator characters of `SEP_ANY` (`-+` collapses to repeated
single-character splits whose empty pieces the caller filters out). -/
def isSepAny (c : Char) : Bool :=
  c = '-' || c = '–' || c = '—' || c = '/' || c = '／' || c = '|' ||
  c = '｜' || c = '•' || c = '・' || c = '~' || c = '〜'

/-- The separator characters of `SEP_META` (`lyrics_core.py` 506-508). -/
def isSepMeta (c : Char) : Bool :=
  c = '-' || c = '–' || c = '—' || c = '/' || c = '／' || c = '|' ||
  c = '｜' || c = ':' || c = '：' || c = '•' || c = '・' || c = '~' ||
  c = '〜'

/-- Drop trailing whitespace of a character list. -/
def dropTrailingWsL (l : List Char) : List Char :=
  (l.reverse.dropWhile pyIsWs).reverse

/-- Embeds `re.split(r"\s*(?:SEP)\s*", ...)`: split at each separator character,
consuming the whitespace adjacent to it. -/
def sepSplitAux (isSep : Char → Bool) : Nat → List Char → List Char →
    List String
  | 0, cur, l => [String.mk (cur ++ l)]
  | _ + 1, cur, [] => [String.mk cur]
  | fuel + 1, cur, c :: rest =>
    if isSep c then
      String.mk (dropTrailingWsL cur) ::
        sepSplitAux isSep fuel [] (rest.dropWhile pyIsWs)
    else sepSplitAux isSep fuel (cur ++ [c]) rest

/-- Regex split on a separator class with adjacent whitespace. -/
def sepSplit (isSep : Char → Bool) (s : String) : List String :=
  sepSplitAux isSep (s.toList.length + 1) [] s.toList

/-- Embeds `song_only` (`lyrics_core.py` 360-370). -/
def song_only (text : String) : String :=
  if text = "" then ""
  else
    let t := _clean_title_for_song text
    let jp := _pick_japanese_segment_safe t
    let tgt := jp.getD t
    let parts := ((sepSplit isSepAny tgt).map pyStrip).filter (· ≠ "")
    if parts.length ≥ 2 then (parts.getLast?).getD tgt else tgt

/-- Embeds `_nf2` (`lyrics_core.py` 486-491): NFKC, strip, collapse whitespace. -/
def _nf2 (s : String) : String :=
  String.mk (collapseWsL false (pyStripL (nfkc s).toList))

/-- Removal of the case-insensitive suffix `\s*[-–—]\s*topic$`. -/
def stripTopicSuffix (s : String) : String :=
  let l := s.toList
  let n := l.length
  if 5 ≤ n && decide ((l.drop (n - 5)).map charLower = "topic".toList) then
    match (dropTrailingWsL (l.take (n - 5))).reverse with
    | d :: rest =>
      if d = '-' || d = '–' || d = '—' then
        String.mk (dropTrailingWsL rest.reverse)
      else s
    | [] => s
  else s

/-- Python `\w` for word boundaries, approximated as ASCII alphanumerics,
underscore, and every non-ASCII codepoint (exact on this repository's
Latin/CJK data). -/
def isWordChar (c : Char) : Bool :=
  c.isAlphanum || c = '_' || c.toNat ≥ 0x80

/-- First alternative (in regex order) matching at this position with a word
boundary after it; returns the consumed length and the rest. -/
def firstChunkMatch (alts : List (List String)) (l : List Char) :
    Option (Nat × List Char) :=
  match alts with
  | [] => none
  | alt :: rest =>
    match matchChunksCI alt l with
    | some r =>
      let ok := match r with
        | [] => true
        | c :: _ => !isWordChar c
      if ok then some (l.length - r.length, r) else firstChunkMatch rest l
    | none => firstChunkMatch rest l

/-- Embeds `re.sub((?i)\b(ALTS)\b, "", ...)`: scan left to right, deleting each
boundary-delimited match, tracking the previous original character for the
leading boundary. -/
def subChunksCIF (alts : List (List String)) : Nat → Option Char →
    List Char → List Char
  | 0, _, l => l
  | _ + 1, _, [] => []
  | fuel + 1, prev, c :: rest =>
    let boundaryBefore := match prev with
      | none => true
      | some p => !isWordChar p
    if boundaryBefore then
      match firstChunkMatch alts (c :: rest) with
      | some (len, r) =>
        subChunksCIF alts fuel ((c :: rest).take len).getLast? r
      | none => c :: subChunksCIF alts fuel (some c) rest
    else c :: subChunksCIF alts fuel (some c) rest

/-- Case-insensitive whole-word removal. -/
def subChunksCI (alts : List (List String)) (s : String) : String :=
  String.mk (subChunksCIF alts s.toList.length none s.toList)

/-- Embeds `_clean_channel_name` (`lyrics_core.py` 494-503). -/
def _clean_channel_name (name : Option String) : Option String :=
  match name with
  | none => none
  | some name =>
    if name = "" then none
    else
      let n := _nf2 name
      let n := stripTopicSuffix n
      let n := subChunksCI
        [["official"], ["offical"], ["オフィシャル"], ["公式"], ["vevo"]] n
      let n := pyStripChars " -–—|｜・".toList
        (String.mk (collapseWsL false n.toList))
      if n = "" then none else some n

/-- Whitespace tokenization (Python `str.split()`). -/
def wsTokensAux : List Char → List Char → List String
  | cur, [] => if cur.isEmpty then [] else [String.mk cur.reverse]
  | cur, c :: rest =>
    if pyIsWs c then
      if cur.isEmpty then wsTokensAux [] rest
      else String.mk cur.reverse :: wsTokensAux [] rest
    else wsTokensAux (c :: cur) rest

/-- Python `s.split()`. -/
def wsTokens (s : String) : List String := wsTokensAux [] s.toList

/-- Insertion into a sorted list (code-point order, as Python `sorted`). -/
def insertStr (s : String) : List String → List String
  | [] => [s]
  | t :: ts => if s < t then s :: t :: ts else t :: insertStr s ts

/-- Insertion sort of string tokens. -/
def sortStrs (l : List String) : List String := l.foldr insertStr []

/-- Deduplicate a sorted list. -/
def dedupSorted : List String → List String
  | [] => []
  | [x] => [x]
  | x :: y :: rest =>
    if x = y then dedupSorted (y :: rest) else x :: dedupSorted (y :: rest)

/-- The larger of two fractions (first on ties). -/
def fMaxF (a b : Frac) : Frac := if fLtB a b then b else a

/-- Embeds `rapidfuzz.fuzz.token_set_ratio`: sorted unique token sets, the
intersection and the two one-sided unions, and the best pairwise ratio. -/
def tokenSetRatioF (a b : String) : Frac :=
  let ta := dedupSorted (sortStrs (wsTokens a))
  let tb := dedupSorted (sortStrs (wsTokens b))
  let i := ta.filter (tb.contains ·)
  let da := ta.filter (fun t => !tb.contains t)
  let db := tb.filter (fun t => !ta.contains t)
  let s0 := String.intercalate " " i
  let s1 := pyStrip (s0 ++ " " ++ String.intercalate " " da)
  let s2 := pyStrip (s0 ++ " " ++ String.intercalate " " db)
  fMaxF (fMaxF (fuzzRatioF s0 s1) (fuzzRatioF s0 s2)) (fuzzRatioF s1 s2)

/-- The alternation of `_trim_noise` (`lyrics_core.py` 558-567) in regex
order (`prod\.?.*?` embedded as the word `prod` with optional dot). -/
def noiseVocab : List (List String) :=
  [["official", "music", "video"], ["official", "video"], ["mv"],
   ["lyrics"], ["lyric", "video"], ["lyric"],
   ["audio"], ["teaser"], ["short"], ["pv"], ["full"],
   ["ver."], ["ver"], ["version"], ["remix"], ["edit"], ["live"],
   ["acoustic"], ["prod."], ["prod"], ["performance"], ["visualizer"],
   ["sped", "up"], ["slowed", "reverb"]]

/-- Embeds `_trim_noise` inside `_guess_from_title_and_channel`. -/
def _trim_noise (s : Option String) : Option String :=
  match s with
  | none => none
  | some s =>
    if s = "" then none
    else
      let s1 := subChunksCI noiseVocab s
      let s2 := pyStripChars " -–—/／|｜•・~〜".toList
        (String.mk (collapseWsL false s1.toList))
      if s2 = "" then none else some s2

/-- Truncation of the Japanese run at the first separator
(`re.sub(r"[\s　]*(?:/|／|\||｜|-|–|—|:|：).*$", "", ...)`; the caller's
strip removes the adjacent whitespace). -/
def takeUntilJpSep : List Char → List Char
  | [] => []
  | c :: rest =>
    if c = '/' || c = '／' || c = '|' || c = '｜' || c = '-' || c = '–' ||
        c = '—' || c = ':' || c = '：' then []
    else c :: takeUntilJpSep rest

/-- Embeds `_guess_from_title_and_channel` (`lyrics_core.py` 511-569). -/
def _guess_from_title_and_channel (title : String) (channel : Option String) :
    Option String × Option String :=
  if title = "" then (none, none)
  else
    let t := _nf2 title
    let t := pyStrip (String.mk (removeTrailingBracketL t.toList))
    let parts := (sepSplit isSepMeta t).filter (· ≠ "")
    let cand0 : Option String × Option String :=
      if parts.length ≥ 2 then (parts.head?, parts.getLast?)
      else (none, none)
    let candArtist := cand0.1
    let candTrack := cand0.2
    let jpLong := longestRun (cjkRuns t.toList.length t.toList)
    let candTrack := match candTrack, jpLong with
      | none, some run => some (pyStrip (String.mk (takeUntilJpSep run)))
      | ct, _ => ct
    let ch := _clean_channel_name (some (channel.getD ""))
    let swapped : Option String × Option String :=
      match ch, candArtist with
      | some chv, some cav =>
        if fLtB (tokenSetRatioF (pyLower (_nf2 chv)) (pyLower (_nf2 cav)))
            ⟨70, 1⟩ then
          if parts.length ≥ 2 &&
              !fLtB (tokenSetRatioF (pyLower (_nf2 chv))
                (pyLower (_nf2 ((parts.getLast?).getD "")))) ⟨70, 1⟩ then
            (parts.getLast?, parts.head?)
          else (candArtist, candTrack)
        else (candArtist, candTrack)
      | _, _ => (candArtist, candTrack)
    let candArtist := swapped.1
    let candTrack := swapped.2
    let candArtist := match ch, candArtist with
      | some chv, none => some chv
      | _, ca => ca
    (_trim_noise candArtist, _trim_noise candTrack)

/-- Counterexample for C6 as stated: the cleaned title `"Song Title"`
contains no separator, so no track candidate is produced — the returned
track is `None`, not `"Song Title"`. -/
theorem spec_c6_cex :
    _guess_from_title_and_channel "Song Title (Official Video)"
        (some "Artist Name - Topic") ≠
      (some "Artist Name", some "Song Title") := by decide

/-- Claim C6 (amended): for channel `"Artist Name - Topic"` and title
`"Song Title (Official Video)"`, the trailing parenthesized qualifier is
stripped and the `- Topic` suffix is removed from the channel, and the
artist falls back to the cleaned channel `"Artist Name"`; but the track is
`None` (the single-segment cleaned title yields no track candidate), not
`"Song Title"`.  `_clean_channel_name` itself returns `"Artist Name"`. -/
theorem spec_c6_amended :
    _guess_from_title_and_channel "Song Title (Official Video)"
        (some "Artist Name - Topic") = (some "Artist Name", none) ∧
    _clean_channel_name (some "Artist Name - Topic") = some "Artist Name" :=
  ⟨by decide, by decide⟩

/-- Claim C9: `song_only` strips bracketed qualifiers, prefers the longest
CJK run, then splits on the separator set and keeps the last segment when at
least two exist, else the whole cleaned target: the Japanese example keeps
the CJK run after the dash, the empty string maps to itself, a two-segment
Latin title keeps its last segment, and a separator-free title is returned
whole. -/
theorem spec_c9 :
    song_only "米津玄師 - かいじゅうのマーチ" = "かいじゅうのマーチ" ∧
    song_only "" = "" ∧
    song_only "Artist - Song" = "Song" ∧
    song_only "JustTitle" = "JustTitle" :=
  ⟨by decide, by decide, by decide, by decide⟩
